import Mathlib

/-!
Verification of the kiokun-data dictionary pipeline scripts.

Words and file contents are modelled as `List Char`; filesystems as functions
from a path to an optional file content; Python dicts as association lists in
insertion order (lookup takes the first matching key, as a dict has unique
keys); byte streams as `List Nat`.
-/

namespace Kiokun

/-! ## Sharder (`scripts/separate_shards.py`) -/

/-- `is_han_character` from `scripts/separate_shards.py`: a code point in the
CJK Unified Ideographs block or one of the Extensions A–G blocks. -/
def is_han_character (c : Char) : Bool :=
  let code := c.toNat
  decide ((0x4E00 ≤ code ∧ code ≤ 0x9FFF) ∨
    (0x3400 ≤ code ∧ code ≤ 0x4DBF) ∨
    (0x20000 ≤ code ∧ code ≤ 0x2A6DF) ∨
    (0x2A700 ≤ code ∧ code ≤ 0x2B73F) ∨
    (0x2B740 ≤ code ∧ code ≤ 0x2B81F) ∨
    (0x2B820 ≤ code ∧ code ≤ 0x2CEAF) ∨
    (0x2CEB0 ≤ code ∧ code ≤ 0x2EBEF) ∨
    (0x30000 ≤ code ∧ code ≤ 0x3134F))

/-- `count_han_chars`: number of Han characters in a word. -/
def count_han_chars (word : List Char) : Nat :=
  (word.filter is_han_character).length

/-- `get_shard_for_word`: shard name for a word, by Han character count
(the source binds `han_count = count_han_chars(word)` and branches on it). -/
def get_shard_for_word (word : List Char) : String :=
  if count_han_chars word = 0 then "non-han"
  else if count_han_chars word = 1 then "han-1char"
  else if count_han_chars word = 2 then "han-2char"
  else "han-3plus"

/-- The four shard names, in the order the `shards` dict of `main` lists them. -/
def shard_names : List String := ["non-han", "han-1char", "han-2char", "han-3plus"]

/-- `shard_counts[shard] += 1` on an association list of per-shard counters. -/
def bump : List (String × Nat) → String → List (String × Nat)
  | [], _ => []
  | (k, v) :: rest, s => if k = s then (k, v + 1) :: rest else (k, v) :: bump rest s

/-- The initial `shard_counts` dict: every shard starts at zero. -/
def init_counts : List (String × Nat) := shard_names.map (fun s => (s, 0))

/-- The copy loop of `main` in `separate_shards.py`: classify each word and
increment its shard's counter. -/
def count_shards (words : List (List Char)) : List (String × Nat) :=
  words.foldl (fun acc w => bump acc (get_shard_for_word w)) init_counts

/-- The verification step of `main` (lines 101–107): a per-shard total that
disagrees with the source file count yields exit status 1, otherwise 0. -/
def verify_shard_counts (total : Nat) (counts : List Nat) : Nat :=
  if counts.sum ≠ total then 1 else 0

/-- `main` of `separate_shards.py`, from the file scan onward: returns the
final counter dict and the process exit status. -/
def run_separation (words : List (List Char)) : List (String × Nat) × Nat :=
  let counts := count_shards words
  (counts, verify_shard_counts words.length (counts.map Prod.snd))

lemma keys_bump (acc : List (String × Nat)) (s : String) :
    (bump acc s).map Prod.fst = acc.map Prod.fst := by
  induction acc with
  | nil => rfl
  | cons kv rest ih =>
    obtain ⟨k, v⟩ := kv
    by_cases h : k = s <;> simp [bump, h, ih]

lemma sum_bump (acc : List (String × Nat)) (s : String)
    (h : s ∈ acc.map Prod.fst) :
    ((bump acc s).map Prod.snd).sum = (acc.map Prod.snd).sum + 1 := by
  induction acc with
  | nil => simp at h
  | cons kv rest ih =>
    obtain ⟨k, v⟩ := kv
    by_cases hk : k = s
    · simp [bump, hk]
      omega
    · have hmem : s ∈ rest.map Prod.fst := by
        simp only [List.map_cons, List.mem_cons] at h
        rcases h with h | h
        · exact absurd h.symm hk
        · exact h
      simp [bump, hk, ih hmem]
      omega

lemma shard_mem (w : List Char) : get_shard_for_word w ∈ shard_names := by
  unfold get_shard_for_word shard_names
  split_ifs <;> simp

lemma sum_count_shards (words : List (List Char)) :
    ((count_shards words).map Prod.snd).sum = words.length := by
  have h : ∀ (l : List (List Char)) (acc : List (String × Nat)),
      acc.map Prod.fst = shard_names →
      ((l.foldl (fun acc w => bump acc (get_shard_for_word w)) acc).map Prod.snd).sum
        = (acc.map Prod.snd).sum + l.length := by
    intro l
    induction l with
    | nil => intro acc hacc; simp
    | cons w rest ih =>
      intro acc hacc
      have hmem : get_shard_for_word w ∈ acc.map Prod.fst := by
        rw [hacc]; exact shard_mem w
      simp only [List.foldl_cons]
      rw [ih _ (by rw [keys_bump, hacc]), sum_bump acc _ hmem]
      simp [List.length_cons]
      omega
  have h2 := h words init_counts (by decide)
  have h0 : (init_counts.map Prod.snd).sum = 0 := by decide
  unfold count_shards
  omega

/-- C4: every word is assigned to exactly one of the four shards; the shard
partition is exhaustive and disjoint, the per-shard counts sum to the total
word count (hence the run exits 0), and the verification step of
`separate_shards.py` turns any count mismatch into a non-zero exit status. -/
theorem C4_shard_partition_exhaustive :
    (∀ words : List (List Char),
      ((run_separation words).1.map Prod.snd).sum = words.length ∧
      (run_separation words).2 = 0) ∧
    (∀ w : List Char, ∃! s, s ∈ shard_names ∧ get_shard_for_word w = s) ∧
    (∀ total : Nat, ∀ counts : List Nat,
      counts.sum ≠ total → verify_shard_counts total counts = 1) := by
  refine ⟨fun words => ?_, fun w => ?_, fun total counts h => ?_⟩
  · have hsum := sum_count_shards words
    constructor
    · simpa [run_separation] using hsum
    · simp [run_separation, verify_shard_counts, hsum]
  · exact ⟨get_shard_for_word w, ⟨shard_mem w, rfl⟩, fun s hs => hs.2.symm⟩
  · simp [verify_shard_counts, h]

/-- Witness for C4: a concrete mismatched count is reported as exit status 1. -/
theorem C4_shard_partition_exhaustive_witness :
    verify_shard_counts 5 [1, 2] = 1 :=
  C4_shard_partition_exhaustive.2.2 5 [1, 2] (by decide)

/-- C5: `get_shard_for_word` is a pure function into exactly the four shard
names, determined solely by the Han code-point count: `non-han` iff the count
is 0, `han-1char` iff 1, `han-2char` iff 2, `han-3plus` iff at least 3; and
the documented scenarios hold. -/
theorem C5_get_shard_for_word_by_han_count :
    (∀ w : List Char,
      (get_shard_for_word w = "non-han" ↔ count_han_chars w = 0) ∧
      (get_shard_for_word w = "han-1char" ↔ count_han_chars w = 1) ∧
      (get_shard_for_word w = "han-2char" ↔ count_han_chars w = 2) ∧
      (get_shard_for_word w = "han-3plus" ↔ 3 ≤ count_han_chars w) ∧
      get_shard_for_word w ∈ shard_names) ∧
    get_shard_for_word ("的".toList) = "han-1char" ∧
    get_shard_for_word ("abc".toList) = "non-han" ∧
    get_shard_for_word ("学生".toList) = "han-2char" := by
  refine ⟨fun w => ?_, by decide, by decide, by decide⟩
  refine ⟨?_, ?_, ?_, ?_, shard_mem w⟩ <;>
    (unfold get_shard_for_word; split_ifs with h1 h2 h3) <;>
    first
      | exact iff_of_true rfl (by omega)
      | exact iff_of_false (by decide) (by omega)

/-! ## Script mapper (`scripts/generate_character_mapping.py` and
`scripts/generate_kanji_mapping.py`) -/

/-- `merge_mappings` from `generate_character_mapping.py`: start from a copy
of the existing mapping and add each new pair only when its key is absent. -/
def merge_mappings (existing character_mapping : List (String × String)) :
    List (String × String) :=
  character_mapping.foldl
    (fun merged kv => if (merged.lookup kv.1).isSome then merged else merged ++ [kv])
    existing

lemma lookup_append (l1 l2 : List (String × String)) (k : String) :
    (l1 ++ l2).lookup k = (l1.lookup k).or (l2.lookup k) := by
  induction l1 with
  | nil => simp [List.lookup]
  | cons kv rest ih =>
    obtain ⟨k1, v1⟩ := kv
    by_cases hk : k == k1 <;> simp [List.lookup, hk, ih]

lemma lookup_merge (N M : List (String × String)) (k : String) :
    (merge_mappings M N).lookup k = (M.lookup k).or (N.lookup k) := by
  induction N generalizing M with
  | nil => simp [merge_mappings, List.lookup]
  | cons kv N ih =>
    obtain ⟨k1, v1⟩ := kv
    rw [show merge_mappings M ((k1, v1) :: N)
        = merge_mappings (if (M.lookup k1).isSome then M else M ++ [(k1, v1)]) N from rfl,
      ih]
    by_cases hc : (M.lookup k1).isSome
    · obtain ⟨v, hv⟩ := Option.isSome_iff_exists.mp hc
      rw [if_pos hc]
      by_cases hk : k == k1
      · have hkk : k = k1 := eq_of_beq hk
        subst hkk
        simp [List.lookup, hv]
      · simp [List.lookup, hk]
    · rw [if_neg hc, lookup_append]
      have hnone : M.lookup k1 = none := Option.not_isSome_iff_eq_none.mp hc
      by_cases hk : k == k1
      · have hkk : k = k1 := eq_of_beq hk
        subst hkk
        simp [List.lookup, hnone]
      · simp [List.lookup, hk]

/-- C6: the character-mapping merge is monotone and additive only:
`merge(M, {}) = M`; every key/value pair of `M` survives unchanged (existing
mappings win); and a key absent from `M` gets exactly the value `N` gives it
(and stays absent when `N` lacks it too). -/
theorem C6_merge_mappings_monotone :
    (∀ M : List (String × String), merge_mappings M [] = M) ∧
    (∀ M N : List (String × String), ∀ k v, M.lookup k = some v →
      (merge_mappings M N).lookup k = some v) ∧
    (∀ M N : List (String × String), ∀ k, M.lookup k = none →
      (merge_mappings M N).lookup k = N.lookup k) := by
  refine ⟨fun M => rfl, fun M N k v h => ?_, fun M N k h => ?_⟩
  · rw [lookup_merge, h]; rfl
  · rw [lookup_merge, h]; rfl

/-- Witness for C6 at concrete mappings: an existing key keeps its old value,
a fresh key receives the new one. -/
theorem C6_merge_mappings_monotone_witness :
    (merge_mappings [("a", "b")] [("a", "c"), ("d", "e")]).lookup ("a") = some "b" ∧
    (merge_mappings [("x", "y")] [("a", "c")]).lookup ("a") = some "c" := by
  constructor
  · exact C6_merge_mappings_monotone.2.1 [("a", "b")] [("a", "c"), ("d", "e")] "a" "b"
      (by decide)
  · rw [C6_merge_mappings_monotone.2.2 [("x", "y")] [("a", "c")] "a" (by decide)]
    decide

/-- `generate_mapping_batch` (identical in both mapping scripts apart from
messages): a line-count mismatch between oracle output and input batch yields
an empty mapping; otherwise inputs are re-associated with outputs by position
and only changed strings are kept. -/
def generate_mapping_batch (unique_kanji converted_lines : List String) :
    List (String × String) :=
  if converted_lines.length ≠ unique_kanji.length then []
  else (unique_kanji.zip converted_lines).filter (fun p => p.2 != p.1)

/-- Python `sorted` on strings: ascending lexicographic sort. -/
def py_sorted (l : List String) : List String :=
  List.insertionSort (fun a b : String => a ≤ b) l

/-- `extract_unique_kanji_from_kanjidic` / `..._from_jmdict`: collect the
literal fields into a set and return `sorted(unique_kanji)`; the set is
modelled as `dedup` of the scan order, the sort makes the order canonical. -/
def extract_unique_kanji (literals : List String) : List String :=
  py_sorted literals.dedup

/-- `sort_keys=True` of `json.dump` (and the `sorted(mapping.items())` of the
Rust writer): pairs in ascending key order. -/
def sort_pairs_by_key (m : List (String × String)) : List (String × String) :=
  List.insertionSort (fun a b : String × String => a.1 ≤ b.1) m

def lbrace : Char := Char.ofNat 123

def rbrace : Char := Char.ofNat 125

def json_escape_char (c : Char) : List Char :=
  if c = '"' ∨ c = '\\' then ['\\', c] else [c]

/-- JSON string escaping (the escapes these artifacts can need). -/
def json_escape (s : List Char) : List Char := s.flatMap json_escape_char

/-- A JSON string literal. -/
def jstr (s : List Char) : List Char := '"' :: json_escape s ++ ['"']

def render_mapping_pair (p : String × String) : List Char :=
  [' ', ' '] ++ jstr p.1.toList ++ [':', ' '] ++ jstr p.2.toList

def joinSep (sep : List Char) : List (List Char) → List Char
  | [] => []
  | [x] => x
  | x :: rest => x ++ sep ++ joinSep sep rest

/-- `save_mapping_as_json` of `generate_character_mapping.py`:
`json.dump(mapping, f, ensure_ascii=False, indent=2, sort_keys=True)` — the
serialized bytes of the mapping with keys in sorted order. -/
def save_mapping_as_json (m : List (String × String)) : List Char :=
  if m.isEmpty then [lbrace, rbrace]
  else lbrace :: '\n' ::
    joinSep [',', '\n'] ((sort_pairs_by_key m).map render_mapping_pair) ++ ['\n', rbrace]

/-- Result of one run of a mapping-build `main`: the process exit status and
the bytes written to the mapping file (`none`: file untouched). -/
structure CharMappingRun where
  exitCode : Nat
  j2cWritten : Option (List Char)

/-- `main` of `generate_character_mapping.py` from the oracle call onward: an
empty `character_mapping` (in particular, any line-count mismatch) exits 1
before the merge is computed or anything is written; otherwise the existing
mapping is merged with the new one and serialized. -/
def generate_character_mapping_main (unique_kanji converted_lines : List String)
    (existing : List (String × String)) : CharMappingRun :=
  let character_mapping := generate_mapping_batch unique_kanji converted_lines
  if character_mapping.isEmpty then ⟨1, none⟩
  else ⟨0, some (save_mapping_as_json (merge_mappings existing character_mapping))⟩

/-- Result of one run of `generate_kanji_mapping.py`'s `main`: contents
written to the Rust file and the JSON file, plus the exit status. -/
structure KanjiMappingRun where
  rustWritten : Option (List (String × String))
  jsonWritten : Option (List (String × String))
  exitCode : Nat

/-- `main` of `generate_kanji_mapping.py` from the oracle call onward: the
mapping returned by `generate_mapping_batch` is written unconditionally —
as Rust source (pairs in sorted order) and as JSON (insertion order) — with
no emptiness check in between. -/
def generate_kanji_mapping_main (unique_kanji converted_lines : List String) :
    KanjiMappingRun :=
  let mapping := generate_mapping_batch unique_kanji converted_lines
  ⟨some (sort_pairs_by_key mapping), some mapping, 0⟩

/-- C1 (failing input): the claim fails on `generate_kanji_mapping.py`.
When the oracle returns one line for a two-string batch, the script still
writes both of its output files — each now holding an empty mapping — and
exits 0, instead of aborting without touching any output file. -/
theorem C1_kanji_mapping_writes_despite_mismatch :
    (["學"] : List String).length ≠ (["学", "国"] : List String).length ∧
    generate_kanji_mapping_main ["学", "国"] ["學"] = ⟨some [], some [], 0⟩ := by
  constructor
  · decide
  · rfl

/-- By contrast, `generate_character_mapping.py` does abort atomically: any
oracle line-count mismatch exits with status 1 and writes no mapping file. -/
theorem character_mapping_atomic_on_mismatch
    (unique_kanji converted_lines : List String)
    (existing : List (String × String))
    (h : converted_lines.length ≠ unique_kanji.length) :
    generate_character_mapping_main unique_kanji converted_lines existing = ⟨1, none⟩ := by
  unfold generate_character_mapping_main generate_mapping_batch
  simp [h]

/-- The character-mapping build as a function of the raw literal scan (in
whatever order set iteration yields it), the prior mapping and the oracle:
the unique batch is sorted before the single oracle call, outputs are
re-associated by position, and the merged mapping is saved with sorted keys. -/
def char_mapping_pipeline (literals : List String) (existing : List (String × String))
    (oracle : String → String) : CharMappingRun :=
  let uniq := extract_unique_kanji literals
  generate_character_mapping_main uniq (uniq.map oracle) existing

/-- C7: two runs over identical inputs produce byte-identical output — the
written bytes are invariant under any permutation of the scanned literals
(set-iteration order), because the batch is sorted before conversion; and
both the batch and the serialized mapping's key order are sorted. -/
theorem C7_char_mapping_deterministic :
    (∀ l1 l2 : List String, ∀ existing : List (String × String),
      ∀ oracle : String → String, l1.Perm l2 →
      char_mapping_pipeline l1 existing oracle = char_mapping_pipeline l2 existing oracle) ∧
    (∀ l : List String, List.Sorted (fun a b : String => a ≤ b) (extract_unique_kanji l)) ∧
    (∀ m : List (String × String),
      List.Sorted (fun a b : String × String => a.1 ≤ b.1) (sort_pairs_by_key m)) := by
  haveI h1 : IsTotal (String × String) (fun a b : String × String => a.1 ≤ b.1) :=
    ⟨fun a b => le_total a.1 b.1⟩
  haveI h2 : IsTrans (String × String) (fun a b : String × String => a.1 ≤ b.1) :=
    ⟨fun a b c hab hbc => le_trans hab hbc⟩
  refine ⟨fun l1 l2 existing oracle h => ?_, fun l => ?_, fun m => ?_⟩
  · have key : extract_unique_kanji l1 = extract_unique_kanji l2 := by
      apply List.eq_of_perm_of_sorted (r := fun a b : String => a ≤ b)
      · exact (List.perm_insertionSort _ _).trans
          (h.dedup.trans (List.perm_insertionSort _ _).symm)
      · exact List.sorted_insertionSort _ _
      · exact List.sorted_insertionSort _ _
    unfold char_mapping_pipeline
    rw [key]
  · exact List.sorted_insertionSort _ _
  · exact List.sorted_insertionSort _ _

/-- Witness for C7: two scan orders of the same literal set produce the same
run result. -/
theorem C7_char_mapping_deterministic_witness :
    char_mapping_pipeline ["国", "学", "国"] [("学", "學")] (fun s => s) =
      char_mapping_pipeline ["学", "国", "国"] [("学", "學")] (fun s => s) :=
  C7_char_mapping_deterministic.1 ["国", "学", "国"] ["学", "国", "国"]
    [("学", "學")] (fun s => s) (by decide)

/-! ## Search-index bulk-insert boundary (`convert_csv_to_sql.py`) -/

def squote : Char := Char.ofNat 39

/-- `escape_sql_string`: `None` becomes the empty string; otherwise
`s.replace("'", "''")` — every single quote becomes two single quotes. -/
def escape_sql_string : Option (List Char) → List Char
  | none => []
  | some s => s.flatMap (fun c => if c = squote then [squote, squote] else [c])

/-- The SQL reading of a string literal's inside (input starts just after the
opening quote): a doubled quote decodes to one quote character, a lone quote
terminates the literal. Returns the decoded contents and the input remaining
after the closing quote. -/
def scan_sql_literal : List Char → Option (List Char × List Char)
  | [] => none
  | c :: rest =>
    if c = squote then
      match rest with
      | c2 :: rest2 =>
        if c2 = squote then (scan_sql_literal rest2).map (fun p => (squote :: p.1, p.2))
        else some ([], rest)
      | [] => some ([], [])
    else (scan_sql_literal rest).map (fun p => (c :: p.1, p.2))

/-- The row formatter of `main`: one `VALUES` tuple with the four string
fields quote-escaped and `is_common` inserted verbatim. -/
def format_sql_value (word language definition pronunciation : Option (List Char))
    (is_common : List Char) : List Char :=
  ['(', squote] ++ escape_sql_string word ++ [squote, ',', ' ', squote]
  ++ escape_sql_string language ++ [squote, ',', ' ', squote]
  ++ escape_sql_string definition ++ [squote, ',', ' ', squote]
  ++ escape_sql_string pronunciation ++ [squote, ',', ' ']
  ++ is_common ++ [')']

lemma scan_cons_other {c : Char} (hc : ¬ c = squote) (l : List Char) :
    scan_sql_literal (c :: l) = (scan_sql_literal l).map (fun p => (c :: p.1, p.2)) := by
  rw [scan_sql_literal.eq_def]
  simp [hc]

lemma scan_cons_escaped (l : List Char) :
    scan_sql_literal (squote :: squote :: l) =
      (scan_sql_literal l).map (fun p => (squote :: p.1, p.2)) := by
  rw [scan_sql_literal.eq_def]
  simp

lemma escape_sql_cons (c : Char) (s : List Char) :
    escape_sql_string (some (c :: s)) =
      (if c = squote then [squote, squote] else [c]) ++ escape_sql_string (some s) := by
  by_cases hc : c = squote <;> simp [escape_sql_string, hc]

/-- C8: every `None` field value becomes the empty string, every single quote
is doubled, and the escaped text placed between quotes can never terminate
the literal early: the SQL literal scanner consumes exactly the escaped
field, decodes it back to the original string, and stops at the closing
quote. -/
theorem C8_escape_sql_string_safe :
    escape_sql_string none = [] ∧
    (∀ s : List Char, (escape_sql_string (some s)).count squote = 2 * s.count squote) ∧
    (∀ s t : List Char, t.head? ≠ some squote →
      scan_sql_literal (escape_sql_string (some s) ++ squote :: t) = some (s, t)) := by
  refine ⟨rfl, fun s => ?_, fun s t ht => ?_⟩
  · induction s with
    | nil => rfl
    | cons c s ih =>
      rw [escape_sql_cons, List.count_append, ih]
      by_cases hc : c = squote <;> (simp [hc, List.count_cons]; try omega)
  · induction s with
    | nil =>
      show scan_sql_literal (squote :: t) = some ([], t)
      match t, ht with
      | [], _ => simp [scan_sql_literal]
      | c2 :: rest2, ht =>
        have hc2 : ¬ c2 = squote := by
          intro h
          exact ht (by simp [h])
        simp [scan_sql_literal, hc2]
    | cons c s ih =>
      rw [escape_sql_cons]
      by_cases hc : c = squote
      · rw [if_pos hc, hc]
        show scan_sql_literal
            (squote :: squote :: (escape_sql_string (some s) ++ squote :: t)) =
          some (squote :: s, t)
        rw [scan_cons_escaped, ih]
        rfl
      · rw [if_neg hc]
        show scan_sql_literal (c :: (escape_sql_string (some s) ++ squote :: t)) =
          some (c :: s, t)
        rw [scan_cons_other hc, ih]
        rfl

/-- Witness for C8: a value containing a quote survives the round trip and
does not terminate the literal at the embedded quote. -/
theorem C8_escape_sql_string_safe_witness :
    scan_sql_literal
        (escape_sql_string (some ['O', squote, 'B']) ++ squote :: [',', ' ']) =
      some (['O', squote, 'B'], [',', ' ']) :=
  C8_escape_sql_string_safe.2.2 ['O', squote, 'B'] [',', ' '] (by decide)

/-! ## Corpus-loader tolerance (`scripts/jsonl_to_json.py`) -/

/-- The whitespace characters `str.strip()` removes from these corpora
(the ASCII whitespace range). -/
def py_whitespace : List Char := [' ', '\t', '\n', '\r', Char.ofNat 11, Char.ofNat 12]

/-- Python `line.strip()`. -/
def py_strip (s : List Char) : List Char :=
  ((s.dropWhile (fun c => py_whitespace.contains c)).reverse.dropWhile
    (fun c => py_whitespace.contains c)).reverse

/-- One iteration of the reading loop of `jsonl_to_json`: skip empty lines;
parse the rest, appending the entry on success and skipping the line (with a
logged warning) on a JSON decode error. -/
def process_line {J : Type} (parse : List Char → Option J) (line : List Char)
    (tail : List J) : List J :=
  if py_strip line = [] then tail
  else
    match parse (py_strip line) with
    | some entry => entry :: tail
    | none => tail

/-- The reading loop of `jsonl_to_json`, with Python's truthiness in the
`if sample_size and i >= sample_size: break` guard (a `sample_size` of `None`
or `0` never breaks); `i` is the 0-based line index. -/
def jsonl_read {J : Type} (parse : List Char → Option J) (sample_size : Option Nat) :
    Nat → List (List Char) → List J
  | _, [] => []
  | i, line :: rest =>
    match sample_size with
    | some n =>
      if n ≠ 0 ∧ n ≤ i then []
      else process_line parse line (jsonl_read parse (some n) (i + 1) rest)
    | none => process_line parse line (jsonl_read parse none (i + 1) rest)

/-- C9: without sampling, the output is exactly the parses of the non-empty
well-formed lines in input order, and any malformed line is skipped without
affecting the rest of the batch. -/
theorem C9_jsonl_read_skips_malformed {J : Type} (parse : List Char → Option J) :
    (∀ lines : List (List Char), ∀ i : Nat,
      jsonl_read parse none i lines =
        lines.filterMap
          (fun l => if py_strip l = [] then none else parse (py_strip l))) ∧
    (∀ xs ys : List (List Char), ∀ bad : List Char, ∀ i : Nat,
      parse (py_strip bad) = none →
      jsonl_read parse none i (xs ++ bad :: ys) = jsonl_read parse none i (xs ++ ys)) := by
  have h1 : ∀ lines : List (List Char), ∀ i : Nat,
      jsonl_read parse none i lines =
        lines.filterMap
          (fun l => if py_strip l = [] then none else parse (py_strip l)) := by
    intro lines
    induction lines with
    | nil => intro i; rfl
    | cons l rest ih =>
      intro i
      show process_line parse l (jsonl_read parse none (i + 1) rest) = _
      rw [ih (i + 1), List.filterMap_cons]
      unfold process_line
      by_cases he : py_strip l = []
      · simp [he]
      · cases hp : parse (py_strip l) <;> simp [he, hp]
  refine ⟨h1, fun xs ys bad i hbad => ?_⟩
  rw [h1, h1, List.filterMap_append, List.filterMap_append, List.filterMap_cons]
  by_cases he : py_strip bad = [] <;> simp [he, hbad]

/-- A sample parser for the C9 witness: accepts only the line `1`. -/
def demo_parse (s : List Char) : Option Nat :=
  if s = ['1'] then some 1 else none

/-- Witness for C9: a malformed middle line is dropped and the rest of the
batch is unaffected. -/
theorem C9_jsonl_read_skips_malformed_witness :
    jsonl_read demo_parse none 0 [['1'], [' ', 'x'], ['1']] =
      jsonl_read demo_parse none 0 [['1'], ['1']] :=
  (C9_jsonl_read_skips_malformed demo_parse).2 [['1']] [['1']] [' ', 'x'] 0 (by decide)

/-! ## Webapp server (`webapp/server.py`) -/

/-- Python `s.startswith(pat)` on character lists. -/
def py_starts_with : List Char → List Char → Bool
  | _, [] => true
  | [], _ :: _ => false
  | c :: cs, p :: ps => p == c && py_starts_with cs ps

/-- Python `s.endswith(pat)`. -/
def py_ends_with (s pat : List Char) : Bool := py_starts_with s.reverse pat.reverse

/-- Which branch of `do_GET` handles a request. -/
inductive RouteAction where
  | index
  | jsonLookup
  | staticFile

deriving instance DecidableEq for RouteAction

/-- The branch structure of `do_GET`, in source order: the root path and
extension-free lookup paths serve the index; `/output_dictionary/*.json`
paths go to the JSON responder; `/static` or dotted paths go to the
inherited static-file handler; anything else defaults to the index. -/
def route (path : List Char) : RouteAction :=
  if path = "/".toList then .index
  else if 1 < path.length ∧ py_starts_with path ("/static".toList) = false ∧
      path.contains '.' = false then .index
  else if py_starts_with path ("/output_dictionary/".toList) = true ∧
      py_ends_with path (".json".toList) = true then .jsonLookup
  else if py_starts_with path ("/static".toList) = true ∨ path.contains '.' = true
    then .staticFile
  else .index

inductive HttpResponse where
  | ok (status : Nat) (contentType : String) (body : List Char)
  | err (status : Nat) (message : String)

deriving instance DecidableEq for HttpResponse

/-- `serve_index`: the contents of `index.html`, or a 404 if it is missing. -/
def serve_index (fs : List Char → Option (List Char)) : HttpResponse :=
  match fs ("index.html".toList) with
  | some content => .ok 200 "text/html; charset=utf-8" content
  | none => .err 404 "index.html not found"

/-- `path.split('/')[-1]`. -/
def last_path_segment (path : List Char) : List Char :=
  (path.reverse.takeWhile (fun c => c != '/')).reverse

/-- `serve_json_file`: take the last path segment, drop the `.json` suffix
(`filename[:-5]`) to recover the looked-up word, and serve
`../output_dictionary/<word>.json` with a JSON content type, or a 404 when
that file is absent. -/
def serve_json_file (fs : List Char → Option (List Char)) (path : List Char) :
    HttpResponse :=
  match fs ("../output_dictionary/".toList ++
      ((last_path_segment path).take ((last_path_segment path).length - 5)) ++
      ".json".toList) with
  | some content => .ok 200 "application/json; charset=utf-8" content
  | none => .err 404 "character not found"

/-- `do_GET`: decode, route, dispatch. The inherited static handler
(`SimpleHTTPRequestHandler.do_GET`) is Python stdlib code external to this
repository and enters only the `staticFile` branch, so it is a parameter. -/
def do_GET (fs : List Char → Option (List Char))
    (static_handler : List Char → HttpResponse) (path : List Char) : HttpResponse :=
  match route path with
  | .index => serve_index fs
  | .jsonLookup => serve_json_file fs path
  | .staticFile => static_handler path

lemma py_starts_with_nil (s : List Char) : py_starts_with s [] = true := by
  cases s <;> rfl

lemma py_starts_with_append (pat a b : List Char) (h : pat.length ≤ a.length) :
    py_starts_with (a ++ b) pat = py_starts_with a pat := by
  induction pat generalizing a with
  | nil => rw [py_starts_with_nil, py_starts_with_nil]
  | cons p ps ih =>
    cases a with
    | nil => simp at h
    | cons c cs =>
      simp only [List.cons_append]
      show (p == c && py_starts_with (cs ++ b) ps) = (p == c && py_starts_with cs ps)
      rw [ih cs (by simpa using Nat.le_of_succ_le_succ h)]

lemma takeWhile_append_all {p : Char → Bool} (a b : List Char)
    (h : ∀ c ∈ a, p c = true) :
    (a ++ b).takeWhile p = a ++ b.takeWhile p := by
  induction a with
  | nil => rfl
  | cons c cs ih =>
    simp only [List.cons_append, List.takeWhile_cons]
    rw [h c (by simp), ih (fun x hx => h x (by simp [hx]))]
    rfl

/-- The artifact request path, as `do_GET` sees it. -/
def artifact_request (w : List Char) : List Char :=
  "/output_dictionary/".toList ++ w ++ ".json".toList

/-- The filesystem path `serve_json_file` opens for a word. -/
def artifact_file (w : List Char) : List Char :=
  "../output_dictionary/".toList ++ w ++ ".json".toList

lemma artifact_request_route (w : List Char) :
    route (artifact_request w) = RouteAction.jsonLookup := by
  have hdot : (artifact_request w).contains '.' = true := by
    apply List.elem_eq_true_of_mem
    unfold artifact_request
    simp
  have hslash : py_starts_with (artifact_request w) ("/static".toList) = false := by
    unfold artifact_request
    rw [List.append_assoc,
      py_starts_with_append ("/static".toList) ("/output_dictionary/".toList)
        (w ++ ".json".toList) (by decide)]
    decide
  have hod : py_starts_with (artifact_request w) ("/output_dictionary/".toList) = true := by
    unfold artifact_request
    rw [List.append_assoc,
      py_starts_with_append ("/output_dictionary/".toList) ("/output_dictionary/".toList)
        (w ++ ".json".toList) (by decide)]
    decide
  have hjson : py_ends_with (artifact_request w) (".json".toList) = true := by
    unfold py_ends_with artifact_request
    rw [List.reverse_append, List.reverse_append,
      py_starts_with_append (".json".toList.reverse) (".json".toList.reverse)
        (w.reverse ++ "/output_dictionary/".toList.reverse) (by decide)]
    decide
  have hroot : artifact_request w ≠ "/".toList := by
    intro h
    have hl := congrArg List.length h
    simp [artifact_request, List.length_append] at hl
  unfold route
  rw [if_neg hroot,
    if_neg (fun hcon => by rw [hdot] at hcon; exact absurd hcon.2.2 (by simp)),
    if_pos ⟨hod, hjson⟩]

lemma artifact_request_segment (w : List Char) (hw : w.contains '/' = false) :
    last_path_segment (artifact_request w) = w ++ ".json".toList := by
  have hwmem : ∀ c ∈ w.reverse, (c != '/') = true := by
    intro c hc
    have hcw : c ∈ w := List.mem_reverse.mp hc
    have : ¬ c = '/' := by
      intro h
      subst h
      have htrue : w.contains '/' = true := List.elem_eq_true_of_mem hcw
      rw [hw] at htrue
      exact absurd htrue (by simp)
    simpa using this
  unfold last_path_segment artifact_request
  rw [List.reverse_append, List.reverse_append,
    takeWhile_append_all _ _ (by decide),
    takeWhile_append_all _ _ hwmem,
    show (("/output_dictionary/".toList).reverse.takeWhile (fun c => c != '/')) = []
      from by decide]
  simp

lemma serve_json_artifact (fs : List Char → Option (List Char)) (w : List Char)
    (hw : w.contains '/' = false) :
    serve_json_file fs (artifact_request w) =
      (match fs (artifact_file w) with
      | some content => HttpResponse.ok 200 "application/json; charset=utf-8" content
      | none => HttpResponse.err 404 "character not found") := by
  unfold serve_json_file
  rw [artifact_request_segment w hw]
  have h5 : (".json".toList).length = 5 := rfl
  have hlen : (w ++ ".json".toList).length - 5 = w.length := by
    simp [List.length_append, h5]
  rw [hlen, List.take_left]
  rfl

/-- C2: a GET for `/output_dictionary/<word>.json` routes to the artifact
responder and answers 200 with a JSON content type and the artifact file's
contents when `../output_dictionary/<word>.json` exists, and a 404 signal
when it is absent. -/
theorem C2_artifact_request_served
    (fs : List Char → Option (List Char)) (static_handler : List Char → HttpResponse)
    (w : List Char) (hw : w.contains '/' = false) :
    (∀ content : List Char, fs (artifact_file w) = some content →
      do_GET fs static_handler (artifact_request w) =
        HttpResponse.ok 200 "application/json; charset=utf-8" content) ∧
    (fs (artifact_file w) = none →
      do_GET fs static_handler (artifact_request w) =
        HttpResponse.err 404 "character not found") := by
  have hdo : do_GET fs static_handler (artifact_request w) =
      serve_json_file fs (artifact_request w) := by
    unfold do_GET
    rw [artifact_request_route w]
  constructor
  · intro content hc
    rw [hdo, serve_json_artifact fs w hw, hc]
  · intro hc
    rw [hdo, serve_json_artifact fs w hw, hc]

/-- A sample filesystem for the server witnesses. -/
def demo_fs : List Char → Option (List Char) :=
  fun p =>
    if p = "index.html".toList then some ("INDEX".toList)
    else if p = "../output_dictionary/的.json".toList then some ("DATA".toList)
    else none

/-- A sample inherited static handler for the server witnesses. -/
def demo_static_handler : List Char → HttpResponse :=
  fun _ => HttpResponse.err 500 "external"

/-- Witness for C2: the artifact for `的` is served with a JSON content type,
and a missing artifact yields 404. -/
theorem C2_artifact_request_served_witness :
    do_GET demo_fs demo_static_handler (artifact_request ("的".toList)) =
      HttpResponse.ok 200 "application/json; charset=utf-8" ("DATA".toList) ∧
    do_GET demo_fs demo_static_handler (artifact_request ("和".toList)) =
      HttpResponse.err 404 "character not found" := by
  constructor
  · exact (C2_artifact_request_served demo_fs demo_static_handler ("的".toList)
      (by decide)).1 ("DATA".toList) (by decide)
  · exact (C2_artifact_request_served demo_fs demo_static_handler ("和".toList)
      (by decide)).2 (by decide)

/-- C10: any decoded path longer than one character that does not start with
`/static` and contains no dot is answered with the contents of `index.html`
(200, HTML content type), regardless of whether any artifact exists; and the
artifact lookup branch is reached only by paths starting with
`/output_dictionary/` and ending in `.json`. -/
theorem C10_extension_free_path_serves_index
    (fs : List Char → Option (List Char)) (static_handler : List Char → HttpResponse) :
    (∀ path idx : List Char, fs ("index.html".toList) = some idx →
      1 < path.length → py_starts_with path ("/static".toList) = false →
      path.contains '.' = false →
      do_GET fs static_handler path = HttpResponse.ok 200 "text/html; charset=utf-8" idx) ∧
    (∀ path : List Char, route path = RouteAction.jsonLookup →
      py_starts_with path ("/output_dictionary/".toList) = true ∧
      py_ends_with path (".json".toList) = true) := by
  constructor
  · intro path idx hidx hlen hstatic hdot
    have hroot : path ≠ "/".toList := by
      intro h
      rw [h] at hlen
      exact absurd hlen (by decide)
    unfold do_GET route
    rw [if_neg hroot, if_pos ⟨hlen, hstatic, hdot⟩]
    unfold serve_index
    rw [hidx]
  · intro path h
    unfold route at h
    split_ifs at h with h1 h2 h3 h4
    exact h3

/-- Witness for C10: a dot-free two-character lookup path serves the index
even though no artifact for it exists. -/
theorem C10_extension_free_path_serves_index_witness :
    do_GET demo_fs demo_static_handler ("/ab".toList) =
      HttpResponse.ok 200 "text/html; charset=utf-8" ("INDEX".toList) :=
  (C10_extension_free_path_serves_index demo_fs demo_static_handler).1
    ("/ab".toList) ("INDEX".toList) (by decide) (by decide) (by decide) (by decide)

/-! ## Artifact compressor and its consuming reader
(`analysis/check_animcjk_coverage.py` / `analysis/test_all_stroke_libraries.py`
read artifacts with `zlib.decompress(compressed, -zlib.MAX_WBITS)`, i.e. a raw
headerless deflate stream; the writer is the Rust artifact compressor, which
is not under `src/` and is modelled from the spec below.) -/

/-- Modelled from the spec: the artifact compressor (Rust side, absent from
`src/`) emits a raw (headerless) deflate stream — no zlib or gzip container.
The model emits deflate *stored* blocks, the byte-exact uncompressed block
type of the deflate format: a block header byte (BFINAL bit, BTYPE=00, five
padding bits — hence `0` or `1`), LEN and NLEN = 65535 − LEN as two
little-endian bytes each, then LEN literal bytes. -/
def deflate_raw (data : List Nat) : List Nat :=
  if h : data.length ≤ 65535 then
    1 :: data.length % 256 :: data.length / 256 ::
      (65535 - data.length) % 256 :: (65535 - data.length) / 256 :: data
  else
    0 :: 255 :: 255 :: 0 :: 0 :: (data.take 65535 ++ deflate_raw (data.drop 65535))
termination_by data.length
decreasing_by simp [List.length_drop]; omega

/-- The consuming reader's decompression (`zlib.decompress(c, -MAX_WBITS)`)
restricted to the streams the compressor emits: decode a sequence of stored
blocks, checking the NLEN complement and that a final block ends the
stream. -/
def inflate_raw (stream : List Nat) : Option (List Nat) :=
  match stream with
  | bfinal :: l0 :: l1 :: n0 :: n1 :: rest =>
    if (l0 + 256 * l1) + (n0 + 256 * n1) = 65535 ∧ l0 + 256 * l1 ≤ rest.length then
      if bfinal = 1 then
        if rest.length = l0 + 256 * l1 then some rest else none
      else if bfinal = 0 then
        (inflate_raw (rest.drop (l0 + 256 * l1))).map
          (fun tail => rest.take (l0 + 256 * l1) ++ tail)
      else none
    else none
  | _ => none
termination_by stream.length
decreasing_by simp [List.length_drop]; omega

lemma two_byte_le (n : Nat) : n % 256 + 256 * (n / 256) = n := Nat.mod_add_div n 256

lemma drop_append_of_length {α : Type} (a b : List α) (n : Nat) (h : a.length = n) :
    (a ++ b).drop n = b := by
  subst h
  exact List.drop_left a b

lemma take_append_of_length {α : Type} (a b : List α) (n : Nat) (h : a.length = n) :
    (a ++ b).take n = a := by
  subst h
  exact List.take_left a b

/-- Raw deflate inversion at the byte level: inflating what the compressor
deflates returns exactly the original data. -/
theorem inflate_raw_deflate_raw (data : List Nat) :
    inflate_raw (deflate_raw data) = some data := by
  induction data using deflate_raw.induct with
  | case1 data h =>
    rw [deflate_raw, dif_pos h]
    rw [inflate_raw]
    rw [two_byte_le data.length, two_byte_le (65535 - data.length)]
    rw [if_pos ⟨by omega, by omega⟩, if_pos rfl, if_pos rfl]
  | case2 data h ih =>
    rw [deflate_raw, dif_neg h]
    rw [inflate_raw]
    have htake : (data.take 65535).length = 65535 := by
      simp [List.length_take]
      omega
    have hlen : 65535 ≤ (data.take 65535 ++ deflate_raw (data.drop 65535)).length := by
      simp [List.length_append, htake]
    rw [if_pos ⟨by norm_num, by simpa using hlen⟩]
    norm_num
    refine ⟨data.drop 65535, ?_, ?_⟩
    · rw [drop_append_of_length _ _ _ htake]
      exact ih
    · rw [take_append_of_length _ _ _ htake]
      exact List.take_append_drop 65535 data

/-! ### Canonical JSON text form: primitives
(Modelled from the spec: the artifact serializer writes one `UnifiedEntry`
per file as canonical JSON text — fixed key order, minimal string escaping;
the parser below is the reader's `json.loads` restricted to that shape.) -/

/-- Consume an exact literal prefix, returning the remaining input. -/
def pExact : List Char → List Char → Option (List Char)
  | [], input => some input
  | c :: rest, input =>
    match input with
    | d :: input2 => if c = d then pExact rest input2 else none
    | [] => none

lemma pExact_self (lit input : List Char) : pExact lit (lit ++ input) = some input := by
  induction lit with
  | nil => rfl
  | cons c rest ih => simp [pExact, ih]

lemma pExact_cons_ne {a c : Char} (l input : List Char) (h : ¬ a = c) :
    pExact (a :: l) (c :: input) = none := by
  simp [pExact, h]

/-- Parse a JSON string body (input starts just after the opening quote). -/
def pStringBody : List Char → Option (List Char × List Char)
  | [] => none
  | c :: rest =>
    if c = '"' then some ([], rest)
    else if c = '\\' then
      match rest with
      | d :: rest2 => (pStringBody rest2).map (fun p => (d :: p.1, p.2))
      | [] => none
    else (pStringBody rest).map (fun p => (c :: p.1, p.2))

/-- Parse a JSON string literal. -/
def pStr (input : List Char) : Option (List Char × List Char) :=
  match input with
  | '"' :: rest => pStringBody rest
  | _ => none

lemma pStringBody_quote (rest : List Char) :
    pStringBody ('"' :: rest) = some ([], rest) := by
  rw [pStringBody.eq_def]
  simp

lemma pStringBody_escaped (d : Char) (rest : List Char) :
    pStringBody ('\\' :: d :: rest) = (pStringBody rest).map (fun p => (d :: p.1, p.2)) := by
  rw [pStringBody.eq_def]
  simp [show ¬ ('\\' = '"') from by decide]

lemma pStringBody_other {c : Char} (hq : ¬ c = '"') (hb : ¬ c = '\\') (rest : List Char) :
    pStringBody (c :: rest) = (pStringBody rest).map (fun p => (c :: p.1, p.2)) := by
  rw [pStringBody.eq_def]
  simp [hq, hb]

lemma pStringBody_escape (s rest : List Char) :
    pStringBody (json_escape s ++ '"' :: rest) = some (s, rest) := by
  induction s with
  | nil => exact pStringBody_quote rest
  | cons c s ih =>
    rw [show json_escape (c :: s) = json_escape_char c ++ json_escape s from by
      simp [json_escape]]
    by_cases hc : c = '"' ∨ c = '\\'
    · rw [show json_escape_char c = ['\\', c] from by simp [json_escape_char, hc],
        List.append_assoc]
      show pStringBody ('\\' :: c :: (json_escape s ++ '"' :: rest)) = some (c :: s, rest)
      rw [pStringBody_escaped, ih]
      rfl
    · push_neg at hc
      rw [show json_escape_char c = [c] from by simp [json_escape_char, hc.1, hc.2]]
      show pStringBody (c :: (json_escape s ++ '"' :: rest)) = some (c :: s, rest)
      rw [pStringBody_other hc.1 hc.2, ih]
      rfl

lemma pStr_jstr (s rest : List Char) : pStr (jstr s ++ rest) = some (s, rest) := by
  have h : jstr s ++ rest = '"' :: (json_escape s ++ '"' :: rest) := by
    simp [jstr]
  rw [h]
  show pStringBody (json_escape s ++ '"' :: rest) = some (s, rest)
  exact pStringBody_escape s rest

/-- The decimal digit character for `n < 10`. -/
def digitChar (n : Nat) : Char := Char.ofNat (48 + n)

/-- Decimal rendering of a natural number, most significant digit first. -/
def natDigits (n : Nat) : List Char :=
  if n < 10 then [digitChar n] else natDigits (n / 10) ++ [digitChar (n % 10)]
termination_by n
decreasing_by exact Nat.div_lt_self (by omega) (by omega)

def is_digit (c : Char) : Bool := decide (48 ≤ c.toNat ∧ c.toNat ≤ 57)

/-- Greedily consume decimal digits, folding them onto an accumulator. -/
def pNatAux : Nat → List Char → Nat × List Char
  | acc, [] => (acc, [])
  | acc, c :: rest =>
    if is_digit c then pNatAux (acc * 10 + (c.toNat - 48)) rest else (acc, c :: rest)

/-- Parse a decimal natural number (at least one digit). -/
def pNat (input : List Char) : Option (Nat × List Char) :=
  match input with
  | c :: rest => if is_digit c then some (pNatAux (c.toNat - 48) rest) else none
  | [] => none

lemma toNat_ofNat_valid {n : Nat} (h : Nat.isValidChar n) : (Char.ofNat n).toNat = n := by
  simp [Char.ofNat, h, Char.ofNatAux, Char.toNat, UInt32.toNat]

lemma toNat_digitChar {d : Nat} (h : d < 10) : (digitChar d).toNat = 48 + d :=
  toNat_ofNat_valid (Or.inl (by omega))

lemma is_digit_digitChar {d : Nat} (h : d < 10) : is_digit (digitChar d) = true := by
  simp [is_digit, toNat_digitChar h]
  omega

lemma natDigits_all_digits (n : Nat) : ∀ c ∈ natDigits n, is_digit c = true := by
  induction n using natDigits.induct with
  | case1 n h =>
    rw [natDigits, if_pos h]
    intro c hc
    simp at hc
    subst hc
    exact is_digit_digitChar h
  | case2 n h ih =>
    rw [natDigits, if_neg h]
    intro c hc
    rcases List.mem_append.mp hc with hc | hc
    · exact ih c hc
    · simp at hc
      subst hc
      exact is_digit_digitChar (Nat.mod_lt _ (by omega))

lemma natDigits_ne_nil (n : Nat) : natDigits n ≠ [] := by
  rw [natDigits.eq_def]
  split <;> simp

def digit_fold (acc : Nat) (ds : List Char) : Nat :=
  ds.foldl (fun a c => a * 10 + (c.toNat - 48)) acc

lemma pNatAux_digits (ds : List Char) (acc : Nat) (rest : List Char)
    (hds : ∀ c ∈ ds, is_digit c = true)
    (hrest : ∀ c, rest.head? = some c → is_digit c = false) :
    pNatAux acc (ds ++ rest) = (digit_fold acc ds, rest) := by
  induction ds generalizing acc with
  | nil =>
    cases rest with
    | nil => rfl
    | cons c r =>
      show pNatAux acc (c :: r) = (digit_fold acc [], c :: r)
      rw [pNatAux.eq_def]
      simp [hrest c rfl, digit_fold]
  | cons c ds ih =>
    show pNatAux acc (c :: (ds ++ rest)) = _
    rw [pNatAux.eq_def]
    simp only [hds c (by simp), if_pos]
    rw [ih _ (fun x hx => hds x (by simp [hx]))]
    rfl

lemma digit_fold_natDigits (n : Nat) :
    ∀ acc, digit_fold acc (natDigits n) = acc * 10 ^ (natDigits n).length + n := by
  induction n using natDigits.induct with
  | case1 n h =>
    intro acc
    rw [natDigits, if_pos h]
    simp [digit_fold, toNat_digitChar h]
    try omega
  | case2 n h ih =>
    intro acc
    rw [natDigits, if_neg h]
    have hmod : n % 10 < 10 := Nat.mod_lt _ (by omega)
    rw [show digit_fold acc (natDigits (n / 10) ++ [digitChar (n % 10)])
        = digit_fold acc (natDigits (n / 10)) * 10 + ((digitChar (n % 10)).toNat - 48) from by
      simp [digit_fold, List.foldl_append]]
    rw [ih acc, toNat_digitChar hmod]
    rw [List.length_append]
    simp [pow_succ, pow_add]
    have hdm := Nat.div_add_mod n 10
    ring_nf
    omega

lemma pNat_natDigits (n : Nat) (rest : List Char)
    (hrest : ∀ c, rest.head? = some c → is_digit c = false) :
    pNat (natDigits n ++ rest) = some (n, rest) := by
  obtain ⟨c, ds, hcd⟩ : ∃ c ds, natDigits n = c :: ds := by
    cases h : natDigits n with
    | nil => exact absurd h (natDigits_ne_nil n)
    | cons c ds => exact ⟨c, ds, rfl⟩
  have hall := natDigits_all_digits n
  rw [hcd] at hall
  have hc : is_digit c = true := hall c (by simp)
  have hfold : digit_fold (c.toNat - 48) ds = n := by
    have hd := digit_fold_natDigits n 0
    rw [hcd] at hd
    simpa [digit_fold] using hd
  rw [hcd]
  show pNat (c :: (ds ++ rest)) = some (n, rest)
  rw [pNat.eq_def]
  simp only [hc, if_pos]
  rw [pNatAux_digits ds _ rest (fun x hx => hall x (by simp [hx])) hrest, hfold]

/-- `true` / `false` literals. -/
def jbool (b : Bool) : List Char := if b then "true".toList else "false".toList

def pBool (input : List Char) : Option (Bool × List Char) :=
  match pExact ("true".toList) input with
  | some rest => some (true, rest)
  | none =>
    match pExact ("false".toList) input with
    | some rest => some (false, rest)
    | none => none

lemma pBool_jbool (b : Bool) (rest : List Char) :
    pBool (jbool b ++ rest) = some (b, rest) := by
  cases b
  · show pBool ("false".toList ++ rest) = some (false, rest)
    have h1 : pExact ("true".toList) ("false".toList ++ rest) = none := by
      show pExact ('t' :: "rue".toList) ('f' :: ("alse".toList ++ rest)) = none
      exact pExact_cons_ne _ _ (by decide)
    rw [pBool, h1, pExact_self]
  · show pBool ("true".toList ++ rest) = some (true, rest)
    rw [pBool, pExact_self]

/-- `null` or a serialized value. -/
def jopt {α : Type} (ser : α → List Char) : Option α → List Char
  | none => "null".toList
  | some x => ser x

def pOpt {α : Type} (f : List Char → Option (α × List Char)) (input : List Char) :
    Option (Option α × List Char) :=
  match pExact ("null".toList) input with
  | some rest => some (none, rest)
  | none => (f input).map (fun p => (some p.1, p.2))

/-- `f` consumes exactly the serialization of any value and returns it. -/
def EmitsExactly {α : Type} (ser : α → List Char)
    (f : List Char → Option (α × List Char)) : Prop :=
  ∀ x rest, f (ser x ++ rest) = some (x, rest)

/-- Serializations start with a known character that cannot be confused with
`null` or a list terminator. -/
def GoodHead {α : Type} (ser : α → List Char) : Prop :=
  ∀ x, ∃ c cs, ser x = c :: cs ∧ ¬ c = 'n' ∧ ¬ c = ']'

lemma pOpt_jopt {α : Type} {ser : α → List Char} {f : List Char → Option (α × List Char)}
    (hf : EmitsExactly ser f) (hhead : GoodHead ser) :
    EmitsExactly (jopt ser) (pOpt f) := by
  intro o rest
  cases o with
  | none =>
    show pOpt f ("null".toList ++ rest) = some (none, rest)
    rw [pOpt, pExact_self]
  | some x =>
    obtain ⟨c, cs, hser, hn, _⟩ := hhead x
    show pOpt f (ser x ++ rest) = some (some x, rest)
    have h1 : pExact ("null".toList) (ser x ++ rest) = none := by
      rw [hser]
      show pExact ('n' :: "ull".toList) (c :: (cs ++ rest)) = none
      exact pExact_cons_ne _ _ (fun h => hn h.symm)
    rw [pOpt, h1, hf x rest]
    rfl

/-- Comma-joined serializations. -/
def joinComma (parts : List (List Char)) : List Char := joinSep [','] parts

/-- A JSON array of serialized elements. -/
def jlist {α : Type} (ser : α → List Char) (l : List α) : List Char :=
  '[' :: joinComma (l.map ser) ++ [']']

/-- Parse comma-separated elements up to the closing bracket; the fuel only
bounds recursion depth and exceeds the element count at every call site. -/
def pListElems {α : Type} (f : List Char → Option (α × List Char)) :
    Nat → List Char → Option (List α × List Char)
  | 0, _ => none
  | fuel + 1, input =>
    match f input with
    | none => none
    | some (x, rest) =>
      match rest with
      | ',' :: rest2 => (pListElems f fuel rest2).map (fun p => (x :: p.1, p.2))
      | ']' :: rest2 => some ([x], rest2)
      | _ => none

/-- Parse a JSON array. -/
def pList {α : Type} (f : List Char → Option (α × List Char)) (input : List Char) :
    Option (List α × List Char) :=
  match input with
  | '[' :: rest =>
    match rest with
    | ']' :: rest2 => some ([], rest2)
    | _ => pListElems f (rest.length + 1) rest
  | _ => none

lemma joinComma_cons2 (a b : List Char) (r : List (List Char)) :
    joinComma (a :: b :: r) = a ++ ',' :: joinComma (b :: r) := by
  show joinSep [','] (a :: b :: r) = a ++ ',' :: joinSep [','] (b :: r)
  rw [joinSep] <;> simp

lemma joinComma_starts {α : Type} (ser : α → List Char) (x : α) (M : List α) :
    ∃ t, joinComma ((x :: M).map ser) = ser x ++ t := by
  cases M with
  | nil => exact ⟨[], by simp [joinComma, joinSep]⟩
  | cons y M2 => exact ⟨',' :: joinComma ((y :: M2).map ser), by
      simp [joinComma_cons2]⟩

lemma joinComma_length_ge {α : Type} (ser : α → List Char)
    (hne : ∀ x, ser x ≠ []) (l : List α) :
    l.length ≤ (joinComma (l.map ser)).length + 1 := by
  induction l with
  | nil => simp
  | cons x l ih =>
    cases l with
    | nil =>
      have h := hne x
      cases hser : ser x with
      | nil => exact absurd hser h
      | cons c cs => simp [joinComma, joinSep, hser]
    | cons y l2 =>
      have hx : 1 ≤ (ser x).length := by
        cases hser : ser x with
        | nil => exact absurd hser (hne x)
        | cons c cs => simp
      simp only [List.map_cons, List.length_cons] at ih ⊢
      rw [joinComma_cons2]
      simp only [List.length_cons, List.length_append]
      omega

lemma pListElems_roundtrip {α : Type} {ser : α → List Char}
    {f : List Char → Option (α × List Char)} (hf : EmitsExactly ser f) :
    ∀ (l : List α), l ≠ [] → ∀ (fuel : Nat), l.length ≤ fuel → ∀ rest,
      pListElems f fuel (joinComma (l.map ser) ++ ']' :: rest) = some (l, rest) := by
  intro l
  induction l with
  | nil => intro h; exact absurd rfl h
  | cons x l ih =>
    intro _ fuel hfuel rest
    obtain ⟨fuel2, rfl⟩ : ∃ m, fuel = m + 1 := ⟨fuel - 1, by simp at hfuel; omega⟩
    cases l with
    | nil =>
      show pListElems f (fuel2 + 1) ((joinComma [ser x]) ++ ']' :: rest) = some ([x], rest)
      rw [show joinComma [ser x] = ser x from rfl]
      rw [pListElems.eq_def]
      simp only [hf x (']' :: rest)]
    | cons y l2 =>
      simp only [List.map_cons] at ih ⊢
      rw [joinComma_cons2, List.append_assoc]
      show pListElems f (fuel2 + 1)
          (ser x ++ (',' :: (joinComma (ser y :: List.map ser l2) ++ ']' :: rest)))
        = some (x :: y :: l2, rest)
      rw [pListElems.eq_def]
      simp only [hf x (',' :: (joinComma (ser y :: List.map ser l2) ++ ']' :: rest))]
      rw [ih (by simp) fuel2 (by simp at hfuel ⊢; omega) rest]
      rfl

lemma pList_jlist {α : Type} {ser : α → List Char}
    {f : List Char → Option (α × List Char)}
    (hf : EmitsExactly ser f) (hhead : GoodHead ser) :
    EmitsExactly (jlist ser) (pList f) := by
  intro l rest
  cases l with
  | nil =>
    show pList f ((('[' :: joinComma []) ++ [']']) ++ rest) = some ([], rest)
    show pList f ('[' :: ']' :: rest) = some ([], rest)
    rfl
  | cons x M =>
    have hne : ∀ y, ser y ≠ [] := by
      intro y hy
      obtain ⟨c, cs, hser, _, _⟩ := hhead x
      obtain ⟨c2, cs2, hser2, _, _⟩ := hhead y
      rw [hser2] at hy
      exact absurd hy (by simp)
    obtain ⟨c, cs, hserx, _, hbr⟩ := hhead x
    obtain ⟨t, ht⟩ := joinComma_starts ser x M
    have hshape : jlist ser (x :: M) ++ rest
        = '[' :: (c :: (cs ++ t ++ ']' :: rest)) := by
      show (('[' :: joinComma ((x :: M).map ser)) ++ [']']) ++ rest = _
      rw [ht, hserx]
      simp
    rw [hshape]
    have hinner : (c :: (cs ++ t ++ ']' :: rest)) = joinComma ((x :: M).map ser) ++ ']' :: rest := by
      rw [ht, hserx]
      simp
    rw [pList.eq_def]
    split
    · rename_i rest1 heq
      injection heq with h1 h2
      subst h2
      split
      · rename_i heq2
        injection heq2 with h3 h4
        exact absurd h3 hbr
      · rw [hinner]
        apply pListElems_roundtrip hf (x :: M) (by simp)
        have hlen := joinComma_length_ge ser hne (x :: M)
        simp only [List.length_append, List.length_cons] at hlen ⊢
        omega
    · rename_i hno
      exact absurd rfl (hno (c :: (cs ++ t ++ ']' :: rest)))

/-! ### The unified-entry data model (spec §3) and its canonical text form -/

/-- `simpTrad` marker of a Chinese item. -/
inductive SimpTradKind where
  | simplifiedOnly
  | traditionalOnly
  | both

deriving instance DecidableEq for SimpTradKind

/-- One item of a ChineseEntry. -/
structure ChineseItem where
  source : List Char
  pinyin : List Char
  definitions : List (List Char)
  simpTrad : SimpTradKind

deriving instance DecidableEq for ChineseItem

structure ChineseStatistics where
  hskLevel : Option Nat
  frequency : Option Nat

deriving instance DecidableEq for ChineseStatistics

structure ChineseEntry where
  simplified : List Char
  traditional : List Char
  gloss : List Char
  items : List ChineseItem
  statistics : ChineseStatistics

deriving instance DecidableEq for ChineseEntry

/-- A kanji or kana spelling with its common flag. -/
structure JapaneseSpelling where
  text : List Char
  common : Bool

deriving instance DecidableEq for JapaneseSpelling

structure JapaneseGloss where
  text : List Char
  lang : List Char

deriving instance DecidableEq for JapaneseGloss

structure JapaneseSense where
  gloss : List JapaneseGloss
  partOfSpeech : List (List Char)

deriving instance DecidableEq for JapaneseSense

structure JapaneseEntry where
  id : List Char
  kanji : List JapaneseSpelling
  kana : List JapaneseSpelling
  sense : List JapaneseSense

deriving instance DecidableEq for JapaneseEntry

structure UnifiedMetadata where
  is_unified : Bool
  chinese_count : Nat
  japanese_count : Nat

deriving instance DecidableEq for UnifiedMetadata

/-- One unified entry: the word (MatchKey), at most one primary entry per
language, and the unification metadata. -/
structure UnifiedEntry where
  word : List Char
  chinese_entry : Option ChineseEntry
  japanese_entry : Option JapaneseEntry
  metadata : UnifiedMetadata

deriving instance DecidableEq for UnifiedEntry

/-- First object key of a JSON object: `{"name":`. -/
def objKey1 (name : String) : List Char := lbrace :: jstr name.toList ++ [':']

/-- Subsequent object key: `,"name":`. -/
def objKeyN (name : String) : List Char := ',' :: jstr name.toList ++ [':']

def serSimpTrad : SimpTradKind → List Char
  | .simplifiedOnly => jstr ("simplified-only".toList)
  | .traditionalOnly => jstr ("traditional-only".toList)
  | .both => jstr ("both".toList)

def serChineseItem (it : ChineseItem) : List Char :=
  objKey1 ("source") ++ jstr it.source ++
  objKeyN ("pinyin") ++ jstr it.pinyin ++
  objKeyN ("definitions") ++ jlist jstr it.definitions ++
  objKeyN ("simpTrad") ++ serSimpTrad it.simpTrad ++ [rbrace]

def serChineseStatistics (st : ChineseStatistics) : List Char :=
  objKey1 ("hskLevel") ++ jopt natDigits st.hskLevel ++
  objKeyN ("frequency") ++ jopt natDigits st.frequency ++ [rbrace]

def serChineseEntry (e : ChineseEntry) : List Char :=
  objKey1 ("simplified") ++ jstr e.simplified ++
  objKeyN ("traditional") ++ jstr e.traditional ++
  objKeyN ("gloss") ++ jstr e.gloss ++
  objKeyN ("items") ++ jlist serChineseItem e.items ++
  objKeyN ("statistics") ++ serChineseStatistics e.statistics ++ [rbrace]

def serJapaneseSpelling (sp : JapaneseSpelling) : List Char :=
  objKey1 ("text") ++ jstr sp.text ++
  objKeyN ("common") ++ jbool sp.common ++ [rbrace]

def serJapaneseGloss (g : JapaneseGloss) : List Char :=
  objKey1 ("text") ++ jstr g.text ++
  objKeyN ("lang") ++ jstr g.lang ++ [rbrace]

def serJapaneseSense (s : JapaneseSense) : List Char :=
  objKey1 ("gloss") ++ jlist serJapaneseGloss s.gloss ++
  objKeyN ("partOfSpeech") ++ jlist jstr s.partOfSpeech ++ [rbrace]

def serJapaneseEntry (e : JapaneseEntry) : List Char :=
  objKey1 ("id") ++ jstr e.id ++
  objKeyN ("kanji") ++ jlist serJapaneseSpelling e.kanji ++
  objKeyN ("kana") ++ jlist serJapaneseSpelling e.kana ++
  objKeyN ("sense") ++ jlist serJapaneseSense e.sense ++ [rbrace]

def serUnifiedMetadata (m : UnifiedMetadata) : List Char :=
  objKey1 ("is_unified") ++ jbool m.is_unified ++
  objKeyN ("chinese_count") ++ natDigits m.chinese_count ++
  objKeyN ("japanese_count") ++ natDigits m.japanese_count ++ [rbrace]

/-- Modelled from the spec: the artifact serializer (Rust side, absent from
`src/`) writes one `UnifiedEntry` as canonical JSON text with a fixed key
order. -/
def serialize_unified_entry (e : UnifiedEntry) : List Char :=
  objKey1 ("word") ++ jstr e.word ++
  objKeyN ("chinese_entry") ++ jopt serChineseEntry e.chinese_entry ++
  objKeyN ("japanese_entry") ++ jopt serJapaneseEntry e.japanese_entry ++
  objKeyN ("metadata") ++ serUnifiedMetadata e.metadata ++ [rbrace]

def pSimpTrad (input : List Char) : Option (SimpTradKind × List Char) :=
  (pStr input).bind fun s =>
    if s.1 = "simplified-only".toList then some (.simplifiedOnly, s.2)
    else if s.1 = "traditional-only".toList then some (.traditionalOnly, s.2)
    else if s.1 = "both".toList then some (.both, s.2)
    else none

def pChineseItem (input : List Char) : Option (ChineseItem × List Char) :=
  (pExact (objKey1 ("source")) input).bind fun i1 =>
  (pStr i1).bind fun s1 =>
  (pExact (objKeyN ("pinyin")) s1.2).bind fun i2 =>
  (pStr i2).bind fun s2 =>
  (pExact (objKeyN ("definitions")) s2.2).bind fun i3 =>
  (pList pStr i3).bind fun s3 =>
  (pExact (objKeyN ("simpTrad")) s3.2).bind fun i4 =>
  (pSimpTrad i4).bind fun s4 =>
  (pExact [rbrace] s4.2).bind fun i5 =>
  some (⟨s1.1, s2.1, s3.1, s4.1⟩, i5)

def pChineseStatistics (input : List Char) : Option (ChineseStatistics × List Char) :=
  (pExact (objKey1 ("hskLevel")) input).bind fun i1 =>
  (pOpt pNat i1).bind fun s1 =>
  (pExact (objKeyN ("frequency")) s1.2).bind fun i2 =>
  (pOpt pNat i2).bind fun s2 =>
  (pExact [rbrace] s2.2).bind fun i3 =>
  some (⟨s1.1, s2.1⟩, i3)

def pChineseEntry (input : List Char) : Option (ChineseEntry × List Char) :=
  (pExact (objKey1 ("simplified")) input).bind fun i1 =>
  (pStr i1).bind fun s1 =>
  (pExact (objKeyN ("traditional")) s1.2).bind fun i2 =>
  (pStr i2).bind fun s2 =>
  (pExact (objKeyN ("gloss")) s2.2).bind fun i3 =>
  (pStr i3).bind fun s3 =>
  (pExact (objKeyN ("items")) s3.2).bind fun i4 =>
  (pList pChineseItem i4).bind fun s4 =>
  (pExact (objKeyN ("statistics")) s4.2).bind fun i5 =>
  (pChineseStatistics i5).bind fun s5 =>
  (pExact [rbrace] s5.2).bind fun i6 =>
  some (⟨s1.1, s2.1, s3.1, s4.1, s5.1⟩, i6)

def pJapaneseSpelling (input : List Char) : Option (JapaneseSpelling × List Char) :=
  (pExact (objKey1 ("text")) input).bind fun i1 =>
  (pStr i1).bind fun s1 =>
  (pExact (objKeyN ("common")) s1.2).bind fun i2 =>
  (pBool i2).bind fun s2 =>
  (pExact [rbrace] s2.2).bind fun i3 =>
  some (⟨s1.1, s2.1⟩, i3)

def pJapaneseGloss (input : List Char) : Option (JapaneseGloss × List Char) :=
  (pExact (objKey1 ("text")) input).bind fun i1 =>
  (pStr i1).bind fun s1 =>
  (pExact (objKeyN ("lang")) s1.2).bind fun i2 =>
  (pStr i2).bind fun s2 =>
  (pExact [rbrace] s2.2).bind fun i3 =>
  some (⟨s1.1, s2.1⟩, i3)

def pJapaneseSense (input : List Char) : Option (JapaneseSense × List Char) :=
  (pExact (objKey1 ("gloss")) input).bind fun i1 =>
  (pList pJapaneseGloss i1).bind fun s1 =>
  (pExact (objKeyN ("partOfSpeech")) s1.2).bind fun i2 =>
  (pList pStr i2).bind fun s2 =>
  (pExact [rbrace] s2.2).bind fun i3 =>
  some (⟨s1.1, s2.1⟩, i3)

def pJapaneseEntry (input : List Char) : Option (JapaneseEntry × List Char) :=
  (pExact (objKey1 ("id")) input).bind fun i1 =>
  (pStr i1).bind fun s1 =>
  (pExact (objKeyN ("kanji")) s1.2).bind fun i2 =>
  (pList pJapaneseSpelling i2).bind fun s2 =>
  (pExact (objKeyN ("kana")) s2.2).bind fun i3 =>
  (pList pJapaneseSpelling i3).bind fun s3 =>
  (pExact (objKeyN ("sense")) s3.2).bind fun i4 =>
  (pList pJapaneseSense i4).bind fun s4 =>
  (pExact [rbrace] s4.2).bind fun i5 =>
  some (⟨s1.1, s2.1, s3.1, s4.1⟩, i5)

def pUnifiedMetadata (input : List Char) : Option (UnifiedMetadata × List Char) :=
  (pExact (objKey1 ("is_unified")) input).bind fun i1 =>
  (pBool i1).bind fun s1 =>
  (pExact (objKeyN ("chinese_count")) s1.2).bind fun i2 =>
  (pNat i2).bind fun s2 =>
  (pExact (objKeyN ("japanese_count")) s2.2).bind fun i3 =>
  (pNat i3).bind fun s3 =>
  (pExact [rbrace] s3.2).bind fun i4 =>
  some (⟨s1.1, s2.1, s3.1⟩, i4)

def pUnifiedEntry (input : List Char) : Option (UnifiedEntry × List Char) :=
  (pExact (objKey1 ("word")) input).bind fun i1 =>
  (pStr i1).bind fun s1 =>
  (pExact (objKeyN ("chinese_entry")) s1.2).bind fun i2 =>
  (pOpt pChineseEntry i2).bind fun s2 =>
  (pExact (objKeyN ("japanese_entry")) s2.2).bind fun i3 =>
  (pOpt pJapaneseEntry i3).bind fun s3 =>
  (pExact (objKeyN ("metadata")) s3.2).bind fun i4 =>
  (pUnifiedMetadata i4).bind fun s4 =>
  (pExact [rbrace] s4.2).bind fun i5 =>
  some (⟨s1.1, s2.1, s3.1, s4.1⟩, i5)

/-- The reader's `json.loads` on a whole artifact, restricted to the
canonical shape: the parse must consume the entire input. -/
def parse_unified_entry (input : List Char) : Option UnifiedEntry :=
  match pUnifiedEntry input with
  | some (e, []) => some e
  | _ => none

/-- Modelled from the spec: the artifact compressor serializes one entry to
its canonical text form and compresses it as a raw headerless deflate
stream. -/
def compress_artifact (e : UnifiedEntry) : List Nat :=
  deflate_raw ((serialize_unified_entry e).map Char.toNat)

/-- The consuming reader (`get_dictionary_characters` in both analysis
scripts): raw-inflate the blob (`zlib.decompress(compressed, -MAX_WBITS)`,
no zlib/gzip wrapper) and re-parse the JSON text. -/
def read_artifact (bytes : List Nat) : Option UnifiedEntry :=
  (inflate_raw bytes).bind fun decompressed =>
    parse_unified_entry (decompressed.map Char.ofNat)

lemma goodHead_jstr : GoodHead jstr :=
  fun s => ⟨'"', json_escape s ++ ['"'], by simp [jstr], by decide, by decide⟩

lemma natDigits_head (n : Nat) :
    ∃ d ds, d < 10 ∧ natDigits n = digitChar d :: ds := by
  induction n using natDigits.induct with
  | case1 n h => exact ⟨n, [], h, by rw [natDigits, if_pos h]⟩
  | case2 n h ih =>
    obtain ⟨d, ds, hd, hds⟩ := ih
    exact ⟨d, ds ++ [digitChar (n % 10)], hd, by rw [natDigits, if_neg h, hds]; simp⟩

lemma head_not_digit_objKeyN (name : String) (X : List Char) :
    ∀ c, (objKeyN name ++ X).head? = some c → is_digit c = false := by
  intro c hc
  have h : (objKeyN name ++ X).head? = some ',' := by simp [objKeyN]
  rw [h] at hc
  injection hc with hc2
  subst hc2
  decide

lemma head_not_digit_rbrace (X : List Char) :
    ∀ c, (([rbrace] ++ X).head?) = some c → is_digit c = false := by
  intro c hc
  have h : ([rbrace] ++ X).head? = some rbrace := by simp
  rw [h] at hc
  injection hc with hc2
  subst hc2
  decide

lemma pNat_objKeyN (n : Nat) (name : String) (X : List Char) :
    pNat (natDigits n ++ (objKeyN name ++ X)) = some (n, objKeyN name ++ X) :=
  pNat_natDigits n _ (head_not_digit_objKeyN name X)

lemma pNat_rbrace (n : Nat) (X : List Char) :
    pNat (natDigits n ++ ([rbrace] ++ X)) = some (n, [rbrace] ++ X) :=
  pNat_natDigits n _ (head_not_digit_rbrace X)

lemma pOpt_pNat_append (o : Option Nat) (X : List Char)
    (hX : ∀ c, X.head? = some c → is_digit c = false) :
    pOpt pNat (jopt natDigits o ++ X) = some (o, X) := by
  cases o with
  | none =>
    show pOpt pNat ("null".toList ++ X) = some (none, X)
    rw [pOpt, pExact_self]
  | some n =>
    obtain ⟨d, ds, hd, hds⟩ := natDigits_head n
    have h1 : pExact ("null".toList) (natDigits n ++ X) = none := by
      rw [hds]
      show pExact ('n' :: "ull".toList) (digitChar d :: (ds ++ X)) = none
      refine pExact_cons_ne _ _ ?_
      intro h
      have h2 := congrArg Char.toNat h
      rw [show ('n').toNat = 110 from rfl, toNat_digitChar hd] at h2
      omega
    show pOpt pNat (natDigits n ++ X) = some (some n, X)
    rw [pOpt, h1, pNat_natDigits n X hX]
    rfl

lemma pOpt_pNat_objKeyN (o : Option Nat) (name : String) (X : List Char) :
    pOpt pNat (jopt natDigits o ++ (objKeyN name ++ X)) = some (o, objKeyN name ++ X) :=
  pOpt_pNat_append o _ (head_not_digit_objKeyN name X)

lemma pOpt_pNat_rbrace (o : Option Nat) (X : List Char) :
    pOpt pNat (jopt natDigits o ++ ([rbrace] ++ X)) = some (o, [rbrace] ++ X) :=
  pOpt_pNat_append o _ (head_not_digit_rbrace X)

lemma pSimpTrad_ser : EmitsExactly serSimpTrad pSimpTrad := by
  have h1 : ¬ ("traditional-only".toList = "simplified-only".toList) := by decide
  have h2 : ¬ ("both".toList = "simplified-only".toList) := by decide
  have h3 : ¬ ("both".toList = "traditional-only".toList) := by decide
  intro v rest
  cases v <;> simp [serSimpTrad, pSimpTrad, pStr_jstr, h1, h2, h3]

lemma goodHead_serSimpTrad : GoodHead serSimpTrad := by
  intro v
  cases v
  · exact goodHead_jstr ("simplified-only".toList)
  · exact goodHead_jstr ("traditional-only".toList)
  · exact goodHead_jstr ("both".toList)

lemma pChineseItem_ser : EmitsExactly serChineseItem pChineseItem := by
  have hslist : ∀ (x : List (List Char)) (r : List Char),
      pList pStr (jlist jstr x ++ r) = some (x, r) :=
    pList_jlist pStr_jstr goodHead_jstr
  intro v rest
  obtain ⟨src, pin, defs, st⟩ := v
  unfold serChineseItem pChineseItem
  simp only [List.append_assoc, pExact_self, Option.some_bind, pStr_jstr, hslist,
    pSimpTrad_ser st]

lemma goodHead_serChineseItem : GoodHead serChineseItem := by
  intro x
  refine ⟨lbrace, ?_, ?_, by decide, by decide⟩
  · exact (jstr ("source".toList) ++ [':']) ++ (jstr x.source ++
      objKeyN ("pinyin") ++ jstr x.pinyin ++
      objKeyN ("definitions") ++ jlist jstr x.definitions ++
      objKeyN ("simpTrad") ++ serSimpTrad x.simpTrad ++ [rbrace])
  · simp [serChineseItem, objKey1, List.append_assoc]

lemma pChineseStatistics_ser : EmitsExactly serChineseStatistics pChineseStatistics := by
  intro v rest
  obtain ⟨hsk, freq⟩ := v
  unfold serChineseStatistics pChineseStatistics
  simp only [List.append_assoc, pExact_self, Option.some_bind,
    pOpt_pNat_objKeyN, pOpt_pNat_rbrace]

lemma goodHead_serChineseStatistics : GoodHead serChineseStatistics := by
  intro x
  refine ⟨lbrace, ?_, ?_, by decide, by decide⟩
  · exact (jstr ("hskLevel".toList) ++ [':']) ++ (jopt natDigits x.hskLevel ++
      objKeyN ("frequency") ++ jopt natDigits x.frequency ++ [rbrace])
  · simp [serChineseStatistics, objKey1, List.append_assoc]

lemma pChineseEntry_ser : EmitsExactly serChineseEntry pChineseEntry := by
  have hitems : ∀ (x : List ChineseItem) (r : List Char),
      pList pChineseItem (jlist serChineseItem x ++ r) = some (x, r) :=
    pList_jlist pChineseItem_ser goodHead_serChineseItem
  intro v rest
  obtain ⟨simp1, trad, gl, items, stats⟩ := v
  unfold serChineseEntry pChineseEntry
  simp only [List.append_assoc, pExact_self, Option.some_bind, pStr_jstr, hitems,
    pChineseStatistics_ser stats]

lemma goodHead_serChineseEntry : GoodHead serChineseEntry := by
  intro x
  refine ⟨lbrace, ?_, ?_, by decide, by decide⟩
  · exact (jstr ("simplified".toList) ++ [':']) ++ (jstr x.simplified ++
      objKeyN ("traditional") ++ jstr x.traditional ++
      objKeyN ("gloss") ++ jstr x.gloss ++
      objKeyN ("items") ++ jlist serChineseItem x.items ++
      objKeyN ("statistics") ++ serChineseStatistics x.statistics ++ [rbrace])
  · simp [serChineseEntry, objKey1, List.append_assoc]

lemma pJapaneseSpelling_ser : EmitsExactly serJapaneseSpelling pJapaneseSpelling := by
  intro v rest
  obtain ⟨tx, cm⟩ := v
  unfold serJapaneseSpelling pJapaneseSpelling
  simp only [List.append_assoc, pExact_self, Option.some_bind, pStr_jstr, pBool_jbool]

lemma goodHead_serJapaneseSpelling : GoodHead serJapaneseSpelling := by
  intro x
  refine ⟨lbrace, ?_, ?_, by decide, by decide⟩
  · exact (jstr ("text".toList) ++ [':']) ++ (jstr x.text ++
      objKeyN ("common") ++ jbool x.common ++ [rbrace])
  · simp [serJapaneseSpelling, objKey1, List.append_assoc]

lemma pJapaneseGloss_ser : EmitsExactly serJapaneseGloss pJapaneseGloss := by
  intro v rest
  obtain ⟨tx, lg⟩ := v
  unfold serJapaneseGloss pJapaneseGloss
  simp only [List.append_assoc, pExact_self, Option.some_bind, pStr_jstr]

lemma goodHead_serJapaneseGloss : GoodHead serJapaneseGloss := by
  intro x
  refine ⟨lbrace, ?_, ?_, by decide, by decide⟩
  · exact (jstr ("text".toList) ++ [':']) ++ (jstr x.text ++
      objKeyN ("lang") ++ jstr x.lang ++ [rbrace])
  · simp [serJapaneseGloss, objKey1, List.append_assoc]

lemma pJapaneseSense_ser : EmitsExactly serJapaneseSense pJapaneseSense := by
  have hgl : ∀ (x : List JapaneseGloss) (r : List Char),
      pList pJapaneseGloss (jlist serJapaneseGloss x ++ r) = some (x, r) :=
    pList_jlist pJapaneseGloss_ser goodHead_serJapaneseGloss
  have hpos : ∀ (x : List (List Char)) (r : List Char),
      pList pStr (jlist jstr x ++ r) = some (x, r) :=
    pList_jlist pStr_jstr goodHead_jstr
  intro v rest
  obtain ⟨gl, pos⟩ := v
  unfold serJapaneseSense pJapaneseSense
  simp only [List.append_assoc, pExact_self, Option.some_bind, hgl, hpos]

lemma goodHead_serJapaneseSense : GoodHead serJapaneseSense := by
  intro x
  refine ⟨lbrace, ?_, ?_, by decide, by decide⟩
  · exact (jstr ("gloss".toList) ++ [':']) ++ (jlist serJapaneseGloss x.gloss ++
      objKeyN ("partOfSpeech") ++ jlist jstr x.partOfSpeech ++ [rbrace])
  · simp [serJapaneseSense, objKey1, List.append_assoc]

lemma pJapaneseEntry_ser : EmitsExactly serJapaneseEntry pJapaneseEntry := by
  have hsp : ∀ (x : List JapaneseSpelling) (r : List Char),
      pList pJapaneseSpelling (jlist serJapaneseSpelling x ++ r) = some (x, r) :=
    pList_jlist pJapaneseSpelling_ser goodHead_serJapaneseSpelling
  have hsense : ∀ (x : List JapaneseSense) (r : List Char),
      pList pJapaneseSense (jlist serJapaneseSense x ++ r) = some (x, r) :=
    pList_jlist pJapaneseSense_ser goodHead_serJapaneseSense
  intro v rest
  obtain ⟨idv, kanji, kana, sense⟩ := v
  unfold serJapaneseEntry pJapaneseEntry
  simp only [List.append_assoc, pExact_self, Option.some_bind, pStr_jstr, hsp, hsense]

lemma goodHead_serJapaneseEntry : GoodHead serJapaneseEntry := by
  intro x
  refine ⟨lbrace, ?_, ?_, by decide, by decide⟩
  · exact (jstr ("id".toList) ++ [':']) ++ (jstr x.id ++
      objKeyN ("kanji") ++ jlist serJapaneseSpelling x.kanji ++
      objKeyN ("kana") ++ jlist serJapaneseSpelling x.kana ++
      objKeyN ("sense") ++ jlist serJapaneseSense x.sense ++ [rbrace])
  · simp [serJapaneseEntry, objKey1, List.append_assoc]

lemma pUnifiedMetadata_ser : EmitsExactly serUnifiedMetadata pUnifiedMetadata := by
  intro v rest
  obtain ⟨iu, cc, jc⟩ := v
  unfold serUnifiedMetadata pUnifiedMetadata
  simp only [List.append_assoc, pExact_self, Option.some_bind, pBool_jbool,
    pNat_objKeyN, pNat_rbrace]

lemma pUnifiedEntry_ser : EmitsExactly serialize_unified_entry pUnifiedEntry := by
  have hce : ∀ (x : Option ChineseEntry) (r : List Char),
      pOpt pChineseEntry (jopt serChineseEntry x ++ r) = some (x, r) :=
    pOpt_jopt pChineseEntry_ser goodHead_serChineseEntry
  have hje : ∀ (x : Option JapaneseEntry) (r : List Char),
      pOpt pJapaneseEntry (jopt serJapaneseEntry x ++ r) = some (x, r) :=
    pOpt_jopt pJapaneseEntry_ser goodHead_serJapaneseEntry
  intro v rest
  obtain ⟨wd, ce, je, md⟩ := v
  unfold serialize_unified_entry pUnifiedEntry
  simp only [List.append_assoc, pExact_self, Option.some_bind, pStr_jstr, hce, hje,
    pUnifiedMetadata_ser md]

/-- C3: decompression in the consuming reader is the exact inverse of the
compressor at the byte level (raw deflate round trip, with no zlib/gzip
container step), and decompressing a compressed artifact and re-parsing it
yields a `UnifiedEntry` structurally equal to the one that produced it. -/
theorem C3_artifact_roundtrip :
    (∀ data : List Nat, inflate_raw (deflate_raw data) = some data) ∧
    (∀ e : UnifiedEntry, read_artifact (compress_artifact e) = some e) := by
  refine ⟨inflate_raw_deflate_raw, fun e => ?_⟩
  unfold read_artifact compress_artifact
  rw [inflate_raw_deflate_raw, Option.some_bind]
  rw [List.map_map]
  rw [show (Char.ofNat ∘ Char.toNat) = id from funext (fun c => Char.ofNat_toNat c)]
  rw [List.map_id]
  unfold parse_unified_entry
  rw [show serialize_unified_entry e = serialize_unified_entry e ++ [] from
    (List.append_nil _).symm]
  rw [pUnifiedEntry_ser e []]

end Kiokun
